import Mathlib

/-!
Verification of the gcp-auto-lb-clean repository: a shallow embedding of its
self-link parsing, liveness classification, deletion planning, task-worker and
firewall-reconciliation code, together with theorems settling the frozen claims
about the natural-language specification.

Modelling conventions:
* Go strings are Lean Strings; byte indexing is modelled on the character list
  (all inputs of interest are ASCII).
* Time instants are Int values (Unix seconds); the Go zero time.Time is the
  instant goZeroTime.
* The cloud API is an explicit environment of functions; a failing call is
  None (or a failure outcome), mirroring how the Go code branches on err.
-/

set_option maxRecDepth 10000

namespace AutoLBClean

/-! ### Go string primitives

strings.Index and strings.LastIndex from the Go standard library, on the
character list of a string.  strIndex s sub is the least index i such that
sub is a prefix of s drop i (None when there is none); strLastIndex is the
greatest such index. -/

def strIndexAux (sub : List Char) : List Char → Option Nat
  | [] => if sub.isEmpty then some 0 else none
  | c :: cs =>
    if sub.isPrefixOf (c :: cs) then some 0
    else (strIndexAux sub cs).map (· + 1)

def strIndex (s sub : List Char) : Option Nat :=
  strIndexAux sub s

def strLastIndexAux (sub : List Char) : List Char → Option Nat
  | [] => if sub.isEmpty then some 0 else none
  | c :: cs =>
    match strLastIndexAux sub cs with
    | some i => some (i + 1)
    | none => if sub.isPrefixOf (c :: cs) then some 0 else none

def strLastIndex (s sub : List Char) : Option Nat :=
  strLastIndexAux sub s

/-! ### Self-link parsing (autolbclean.go)

parseURL is the generic parser (source: parseURL, autolbclean.go lines
113-139).  ParseUrlMap, ParseService, ParseInstanceGroup in the source
hand-inline the identical algorithm for a fixed keyword; they are embedded as
instances of the generic parser.  ParseSslCertificates, ParseBackendServices
and ParseHealthChecks are defined via parseURL in the source itself. -/

structure ParsedLink where
  name : String
  region : String
deriving DecidableEq, Repr

/-- The region/name extraction shared by every parser: given the index pos of
the slash-prefixed collection keyword, the scope is the segment before that
slash, and the name is everything after the last slash from pos on. -/
def parseAt (s : List Char) (pos : Nat) : Except String ParsedLink :=
  match strLastIndex (s.take pos) [ '/' ] with
  | none => .error "failed to find region"
  | some i =>
    match strLastIndex (s.drop pos) [ '/' ] with
    | none => .error "failed to find name"
    | some j => .ok ⟨⟨(s.drop pos).drop (j + 1)⟩, ⟨(s.take pos).drop (i + 1)⟩⟩

def parseURL (s keyword : String) : Except String ParsedLink :=
  match strIndex s.data ( '/' :: keyword.data) with
  | none => .error "failed to find keyword"
  | some pos => parseAt s.data pos

def ParseUrlMap (s : String) : Except String ParsedLink :=
  parseURL s "urlMaps"

def ParseService (s : String) : Except String ParsedLink :=
  parseURL s "backendServices"

def ParseSslCertificates (s : String) : Except String ParsedLink :=
  parseURL s "sslCertificates"

def ParseBackendServices (s : String) : Except String ParsedLink :=
  parseURL s "backendServices"

def ParseHealthChecks (s : String) : Except String ParsedLink :=
  parseURL s "healthChecks"

def ParseInstanceGroup (s : String) : Except String ParsedLink :=
  parseURL s "instanceGroups"

structure ParsedTargetProxy where
  name : String
  region : String
  isHTTPs : Bool
deriving DecidableEq, Repr

/-- ParseTargetProxy (autolbclean.go lines 42-71): tries the HTTP keyword
first, then the HTTPS keyword, then extracts region and name as parseURL. -/
def ParseTargetProxy (s : String) : Except String ParsedTargetProxy :=
  match strIndex s.data "/targetHttpProxies".data with
  | some pos => (parseAt s.data pos).map (fun p => ⟨p.name, p.region, false⟩)
  | none =>
    match strIndex s.data "/targetHttpsProxies".data with
    | some pos => (parseAt s.data pos).map (fun p => ⟨p.name, p.region, true⟩)
    | none => .error "failed to find keywords targetHttpProxies or targetHttpsProxies"

/-! ### Data model and cloud-API environment (compute API objects used by the
resolver and classifier; app.go and autolbclean.go) -/

structure TargetProxyInfo where
  name : String
  sslCertificates : List String
  urlMap : String
  creationTimestamp : String
deriving DecidableEq, Repr

structure PathRule where
  service : String
deriving DecidableEq, Repr

structure PathMatcher where
  pathRules : List PathRule
deriving DecidableEq, Repr

structure UrlMap where
  pathMatchers : List PathMatcher
deriving DecidableEq, Repr

structure Backend where
  group : String
deriving DecidableEq, Repr

structure BackendService where
  name : String
  selfLink : String
  backends : List Backend
  healthChecks : List String
deriving DecidableEq, Repr

/-- The slice of the cloud API and of the ambient clock consumed by the
classifier pass.  A None result models a failing API call (the Go code only
branches on err being nil or not).  parseTime models time.Parse with layout
RFC3339: None is a parse error; the Go code receives the zero time.Time
together with the error in that case. -/
structure Env where
  now : Int
  parseTime : String → Option Int
  getTargetHttpProxy : String → Option TargetProxyInfo
  getTargetHttpsProxy : String → Option TargetProxyInfo
  getUrlMap : String → Option UrlMap
  getBackendService : String → Option BackendService
  listGroupInstances : String → String → Option (List String)

/-- Unix seconds of the zero time.Time (January 1, year 1, 00:00:00 UTC),
which Go's time.Parse returns alongside its error. -/
def goZeroTime : Int := -62135596800

/-- FindBackendServices (autolbclean.go lines 145-163), inner loop: for each
path rule, parse the service self-link and fetch the backend service,
aborting on the first failure. -/
def findBackendServicesAux (env : Env) : List PathRule → Except String (List BackendService)
  | [] => .ok []
  | pr :: rest =>
    match ParseService pr.service with
    | .error _ => .error "failed to parse backend service url"
    | .ok p =>
      match env.getBackendService p.name with
      | none => .error "failed to get backend service"
      | some s => (findBackendServicesAux env rest).map (fun l => s :: l)

def FindBackendServices (env : Env) (um : UrlMap) : Except String (List BackendService) :=
  findBackendServicesAux env (um.pathMatchers.flatMap (fun pm => pm.pathRules))

/-- ListInstancesForService (autolbclean.go lines 193-216): for each backend,
parse the instance-group self-link (aborting the whole listing on a parse
error) and list the group's instances, skipping the group when the listing
call fails. -/
def listInstancesAux (env : Env) : List Backend → Except String (List String)
  | [] => .ok []
  | b :: rest =>
    match ParseInstanceGroup b.group with
    | .error _ => .error "failed to parse instance group url"
    | .ok p =>
      match env.listGroupInstances p.region p.name with
      | none => listInstancesAux env rest
      | some items => (listInstancesAux env rest).map (fun l => items ++ l)

def ListInstancesForService (env : Env) (s : BackendService) : Except String (List String) :=
  listInstancesAux env s.backends

/-- The total loop of checkAndDeleteTargetProxiesIfApplicable (app.go lines
212-219): sum of instance-list lengths over the services, aborting on the
first listing error. -/
def totalInstances (env : Env) : List BackendService → Except String Nat
  | [] => .ok 0
  | s :: rest =>
    match ListInstancesForService env s with
    | .error e => .error e
    | .ok items => (totalInstances env rest).map (fun t => items.length + t)

/-! ### Deletion planner (app.go lines 227-288) -/

/-- One taskqueue.NewPOSTTask: endpoint path plus the url.Values the code
sets.  Fields the code does not set for a given task keep their zero value
(empty region, no https flag), matching what FormValue later yields.  The
expires value is modelled as the instant itself: the code formats
now+15min as RFC3339 and the workers parse it back. -/
structure DeletionTask where
  path : String
  name : String
  region : String
  https : Option Bool
  expires : Int
deriving DecidableEq, Repr

def certTasks (certificates : List String) (expires : Int) : List DeletionTask :=
  certificates.filterMap (fun cert =>
    match ParseSslCertificates cert with
    | .error _ => none
    | .ok p => some ⟨"/job/ssl-certificates/delete", p.name, "", none, expires⟩)

def serviceTasks (services : List BackendService) (expires : Int) : List DeletionTask :=
  services.flatMap (fun s =>
    (⟨"/job/backend-services/delete", s.name,
      (match ParseBackendServices s.selfLink with
       | .ok p => p.region
       | .error _ => ""), none, expires⟩ : DeletionTask) ::
    s.healthChecks.map (fun hc =>
      ⟨"/job/health-checks/delete",
       (match ParseHealthChecks hc with
        | .ok p => p.name
        | .error _ => ""), "", none, expires⟩))

/-- The ordered task list enqueued for a dead tree: proxy, certificates
(HTTPS only), backend services each followed by its health checks, the url
map, and the forwarding rule when one exists. -/
def buildPlan (fwname rgn tpName : String) (isHTTPs : Bool) (certificates : List String)
    (services : List BackendService) (umname : String) (expires : Int) : List DeletionTask :=
  ⟨"/job/target-http-proxies/delete", tpName, "", some isHTTPs, expires⟩ ::
  ((if isHTTPs then certTasks certificates expires else []) ++
   serviceTasks services expires ++
   [⟨"/job/url-maps/delete", umname, "", none, expires⟩] ++
   (if 0 < fwname.length then
      [⟨"/job/forwarding-rules/delete", fwname, rgn, none, expires⟩]
    else []))

/-- The proxy lookup at the top of checkAndDeleteTargetProxiesIfApplicable
(app.go lines 167-189): name, certificates (HTTPS branch only), url-map link
and creation timestamp. -/
def resolveProxyInfo (env : Env) (tpname : String) (isHTTPs : Bool) :
    Option (String × List String × String × String) :=
  if isHTTPs then
    (env.getTargetHttpsProxy tpname).map
      (fun tp => (tp.name, tp.sslCertificates, tp.urlMap, tp.creationTimestamp))
  else
    (env.getTargetHttpProxy tpname).map
      (fun tp => (tp.name, [], tp.urlMap, tp.creationTimestamp))

/-- checkAndDeleteTargetProxiesIfApplicable (app.go lines 167-289), returning
the list of tasks it enqueues: .ok [] when the tree is classified alive,
.ok plan when dead, .error when resolution fails.  The grace check uses the
result of time.Parse with the error discarded, so a failed parse yields the
zero time. -/
def checkAndDeleteTargetProxiesIfApplicable (env : Env) (fwname rgn tpname : String)
    (isHTTPs : Bool) : Except String (List DeletionTask) :=
  match resolveProxyInfo env tpname isHTTPs with
  | none =>
    .error (if isHTTPs then "failed to get target https proxy"
            else "failed to get target http proxy")
  | some (tpName, certificates, urlMapURL, timestamp) =>
    if ((env.parseTime timestamp).getD goZeroTime) > env.now - 3600 then .ok []
    else
      match ParseUrlMap urlMapURL with
      | .error _ => .error "failed to parse url map selflink"
      | .ok um =>
        match env.getUrlMap um.name with
        | none => .error "failed to get url map"
        | some umap =>
          match FindBackendServices env umap with
          | .error e => .error e
          | .ok services =>
            match totalInstances env services with
            | .error e => .error e
            | .ok total =>
              if 0 < total then .ok []
              else .ok (buildPlan fwname rgn tpName isHTTPs certificates services um.name
                          (env.now + 900))

/-- The tasks actually enqueued by one call: none when resolution fails. -/
def emittedTasks (env : Env) (fwname rgn tpname : String) (isHTTPs : Bool) :
    List DeletionTask :=
  match checkAndDeleteTargetProxiesIfApplicable env fwname rgn tpname isHTTPs with
  | .ok l => l
  | .error _ => []

/-! ### Concrete example environments -/

def umLink : String := "projects/p1/global/urlMaps/um-1"

def bsLink : String := "projects/p1/global/backendServices/bs-1"

def igLink : String := "projects/p1/zones/z1/instanceGroups/ig-1"

def hcLink : String := "projects/p1/global/healthChecks/hc-1"

def certLink : String := "projects/p1/global/sslCertificates/cert-1"

def tpTs : String := "2020-01-01T00:00:00Z"

def tpDead : TargetProxyInfo :=
  ⟨"tp-1", [], umLink, tpTs⟩

def tpsDead : TargetProxyInfo :=
  ⟨"tps-1", [certLink], umLink, tpTs⟩

def umEx : UrlMap := ⟨[⟨[⟨bsLink⟩]⟩]⟩

def bsEx : BackendService := ⟨"bs-1", bsLink, [⟨igLink⟩], [hcLink]⟩

/-- A two-hour-old proxy over a tree with zero instances everywhere. -/
def envDead : Env where
  now := 10000
  parseTime := fun s => if s = tpTs then some 2800 else none
  getTargetHttpProxy := fun nm => if nm = "tp-1" then some tpDead else none
  getTargetHttpsProxy := fun nm => if nm = "tps-1" then some tpsDead else none
  getUrlMap := fun nm => if nm = "um-1" then some umEx else none
  getBackendService := fun nm => if nm = "bs-1" then some bsEx else none
  listGroupInstances := fun _ _ => some []

/-- Same tree, but the proxy was created thirty minutes ago. -/
def envYoung : Env :=
  { envDead with parseTime := fun s => if s = tpTs then some 8200 else none }

/-- Same tree, two hours old, but one live instance in the instance group. -/
def envLive : Env :=
  { envDead with listGroupInstances := fun _ _ => some ["inst-1"] }

/-- Same tree, two hours old, but the creation timestamp fails to parse. -/
def envNoParse : Env :=
  { envDead with parseTime := fun _ => none }

/-! ### HTTP routing and deletion workers (app.go lines 45-79 and 291-485) -/

inductive Handler
  | forwardingRulesCheck
  | firewallsCheck
  | forwardingRulesDelete
  | urlMapsDelete
  | backendServicesDelete
  | targetPoolCheck
  | targetPoolsDelete
  | targetProxiesDelete
  | healthChecksDelete
  | sslCertificatesDelete
deriving DecidableEq, Repr

/-- The http.HandleFunc registrations of init (app.go lines 45-64), in
source order.  Note line 58: the ssl-certificates delete path is registered
to httpBackendServicesDelete; httpSslCertificatesDelete is never
registered. -/
def routeTable : List (String × Handler) :=
  [("/job/forwarding-rules/check", .forwardingRulesCheck),
   ("/job/firewall-rules/check", .firewallsCheck),
   ("/job/forwarding-rules/delete", .forwardingRulesDelete),
   ("/job/url-maps/delete", .urlMapsDelete),
   ("/job/ssl-certificates/delete", .backendServicesDelete),
   ("/job/backend-services/delete", .backendServicesDelete),
   ("/job/target-pools/check", .targetPoolCheck),
   ("/job/target-pools/delete", .targetPoolsDelete),
   ("/job/target-http-proxies/delete", .targetProxiesDelete),
   ("/job/health-checks/delete", .healthChecksDelete)]

def routeHandler (path : String) : Option Handler :=
  (routeTable.find? (fun p => p.1 = path)).map (fun p => p.2)

/-- The compute-API delete operations the workers can issue. -/
inductive ResourceKind
  | globalForwardingRule
  | regionalForwardingRule
  | urlMap
  | globalBackendService
  | regionalBackendService
  | sslCertificate
  | targetPool
  | healthCheck
  | targetHttpProxy
  | targetHttpsProxy
  | firewall
deriving DecidableEq, Repr

structure ApiCall where
  kind : ResourceKind
  name : String
  region : String
deriving DecidableEq, Repr

/-- A Go error as the delete workers can observe it: a googleapi.Error with
its HTTP code, or any other error value. -/
inductive GoError
  | googleApi (code : Nat)
  | other
deriving DecidableEq, Repr

inductive DeleteOutcome
  | success
  | failure (e : GoError)
deriving DecidableEq, Repr

/-- handleJobError (app.go lines 66-79): a googleapi 404 is answered with
StatusNoContent (stop the taskqueue), everything else with
StatusInternalServerError (retry). -/
def handleJobErrorStatus : GoError → Nat
  | .googleApi code => if code = 404 then 204 else 500
  | .other => 500

/-- The taskqueue acknowledges (stops redelivering) on any 2XX response. -/
def acked (status : Nat) : Bool :=
  decide (200 ≤ status ∧ status < 300)

/-- The request parameters a delete worker reads: FormValue name, region and
https (strconv.ParseBool errors discarded as false), and the parsed expires
value, None being a parse error. -/
structure HttpRequest where
  name : String
  region : String
  httpsParam : Bool
  expiresParse : Option Int
deriving Repr

/-- isExpired (app.go lines 291-294): true on a parse error or when now is
strictly after the expiry. -/
def isExpired (r : HttpRequest) (now : Int) : Bool :=
  match r.expiresParse with
  | none => true
  | some e => decide (now > e)

structure WorkerEnv where
  now : Int
  outcome : ApiCall → DeleteOutcome

/-- The single compute delete call each delete worker issues for a request,
kind and arguments as in its body; None for the two check handlers, which are
not part of the worker model. -/
def deleteCallOf : Handler → HttpRequest → Option ApiCall
  | .forwardingRulesDelete, r =>
    some (if r.region = "global" then ⟨.globalForwardingRule, r.name, ""⟩
          else ⟨.regionalForwardingRule, r.name, r.region⟩)
  | .urlMapsDelete, r => some ⟨.urlMap, r.name, ""⟩
  | .backendServicesDelete, r =>
    some (if r.region = "global" then ⟨.globalBackendService, r.name, ""⟩
          else ⟨.regionalBackendService, r.name, r.region⟩)
  | .sslCertificatesDelete, r => some ⟨.sslCertificate, r.name, ""⟩
  | .targetPoolsDelete, r => some ⟨.targetPool, r.name, r.region⟩
  | .targetProxiesDelete, r =>
    some (if r.httpsParam then ⟨.targetHttpsProxy, r.name, ""⟩
          else ⟨.targetHttpProxy, r.name, ""⟩)
  | .healthChecksDelete, r => some ⟨.healthCheck, r.name, ""⟩
  | _, _ => none

/-- One delivery to a delete worker: the HTTP status it answers and the API
calls it issues.  Expiry is checked before anything else; then the app
client is built (a failure answers StatusOK with no call); then the single
delete is attempted and failures go through handleJobError. -/
def runHandler (env : WorkerEnv) (appOk : Bool) (h : Handler) (r : HttpRequest) :
    Nat × List ApiCall :=
  match deleteCallOf h r with
  | none => (204, [])
  | some c =>
    if isExpired r env.now then (204, [])
    else if !appOk then (200, [])
    else
      match env.outcome c with
      | .success => (204, [c])
      | .failure e => (handleJobErrorStatus e, [c])

/-- The request carried by a planner-emitted ssl-certificate deletion task:
name and expires are the only parameters the planner sets, so region reads
back as the empty string. -/
def reqSsl : HttpRequest :=
  ⟨"k8s-ssl-cert-1", "", false, some 2000⟩

def envWorker : WorkerEnv :=
  ⟨1000, fun _ => .success⟩

/-! ### Firewall reconciliation (ListDanglingFirewalls and
httpFirewallsCheck) -/

structure Firewall where
  name : String
  targetTags : List String
deriving DecidableEq, Repr

structure GceInstance where
  tags : List String
deriving DecidableEq, Repr

structure FwEnv where
  firewalls : List Firewall
  zones : List String
  instancesInZone : String → List GceInstance

/-- The tags2fws map, as an association list in key-insertion order (the Go
map iterates in unspecified order; every property proved below is
order-insensitive). -/
abbrev TagMap : Type := List (String × List Firewall)

/-- tags2fws[tag] = append(tags2fws[tag], fw): extend the entry for tag, or
create one at the end. -/
def tmAppend : TagMap → String → Firewall → TagMap
  | [], tag, fw => [(tag, [fw])]
  | (t, fs) :: rest, tag, fw =>
    if t = tag then (t, fs ++ [fw]) :: rest
    else (t, fs) :: tmAppend rest tag fw

/-- delete(tags2fws, tag). -/
def tmDelete (m : TagMap) (tag : String) : TagMap :=
  m.filter (fun p => ! (p.1 == tag))

/-- strings.HasPrefix(tag, "gke-"), on the character list (the inputs are
ASCII, so byte and character comparison agree). -/
def isGkeTag (tag : String) : Bool :=
  "gke-".data.isPrefixOf tag.data

/-- The tag loop of the firewall pass: only gke- prefixed target tags are
recorded. -/
def addFirewallTags (m : TagMap) (fw : Firewall) : TagMap :=
  fw.targetTags.foldl
    (fun m tag => if isGkeTag tag then tmAppend m tag fw else m) m

def buildTagMap (fws : List Firewall) : TagMap :=
  fws.foldl addFirewallTags []

/-- The instance loop: every gke- prefixed tag observed on an instance is
removed from the map. -/
def removeInstanceTags (m : TagMap) (inst : GceInstance) : TagMap :=
  inst.tags.foldl
    (fun m tag => if isGkeTag tag then tmDelete m tag else m) m

/-- One zone of the scan; the pass breaks out early once the map is empty. -/
def scanZone (env : FwEnv) (m : TagMap) (z : String) : TagMap :=
  if m.isEmpty then m
  else (env.instancesInZone z).foldl removeInstanceTags m

def scanZonesFrom (env : FwEnv) (zs : List String) (m : TagMap) : TagMap :=
  zs.foldl (scanZone env) m

/-- ListDanglingFirewalls (part_001 lines 231-286): build the tag map, scan
every zone, and return all firewalls still referenced by a surviving tag. -/
def ListDanglingFirewalls (env : FwEnv) : List Firewall :=
  (scanZonesFrom env env.zones (buildTagMap env.firewalls)).flatMap (fun p => p.2)

/-- httpFirewallsCheck (app.go lines 487-513): delete the dangling firewalls
one by one, stopping right after the first failing delete. -/
def issueDeletes (outcome : String → Bool) : List Firewall → List String
  | [] => []
  | fw :: rest =>
    if outcome fw.name then fw.name :: issueDeletes outcome rest else [fw.name]

def firewallDeleteCalls (env : FwEnv) (outcome : String → Bool) : List String :=
  issueDeletes outcome (ListDanglingFirewalls env)

/-- Is the tag observed on some instance of some zone? -/
def zoneSeesTag (env : FwEnv) (z : String) (tag : String) : Bool :=
  (env.instancesInZone z).any (fun inst => inst.tags.contains tag)

def tagLive (env : FwEnv) (tag : String) : Bool :=
  env.zones.any (fun z => zoneSeesTag env z tag)

/-! ### Concrete firewall and worker examples -/

/-- A firewall rule keyed both by a tag that is live on an instance and by a
tag with no live instance anywhere. -/
def fwMixed : Firewall := ⟨"fw-mixed", ["gke-live", "gke-dead"]⟩

def envC8 : FwEnv :=
  ⟨[fwMixed], ["z1"], fun z => if z = "z1" then [⟨["gke-live"]⟩] else []⟩

/-- A firewall rule keyed by a single dead tag. -/
def fwDead : Firewall := ⟨"fw-dead", ["gke-dead"]⟩

def envC8w : FwEnv := ⟨[fwDead], ["z1"], fun _ => []⟩

/-- A firewall rule keyed by two dead gke tags. -/
def fwMulti : Firewall := ⟨"fw-multi", ["gke-x", "gke-y"]⟩

def envC10 : FwEnv := ⟨[fwMulti], ["z1"], fun _ => []⟩

/-- A delivered task whose expiry (500) already lies in the past of
envWorker.now (1000). -/
def reqExpired : HttpRequest := ⟨"bs-old", "global", false, some 500⟩

/-- A worker environment in which every delete fails with a googleapi 404. -/
def envNotFound : WorkerEnv := ⟨1000, fun _ => .failure (.googleApi 404)⟩

/-! ### Lemmas about the string primitives -/

theorem strLastIndexAux_slash_none_iff (l : List Char) :
    strLastIndexAux [ '/' ] l = none ↔ '/' ∉ l := by
  induction l with
  | nil => simp [strLastIndexAux]
  | cons c cs ih =>
    simp only [strLastIndexAux]
    cases h : strLastIndexAux [ '/' ] cs with
    | some i =>
      have : '/' ∈ cs := by
        by_contra hmem
        rw [← ih] at hmem
        simp [h] at hmem
      simp [this]
    | none =>
      have hcs : '/' ∉ cs := ih.mp h
      by_cases hc : c = '/'
      · subst hc
        simp [List.isPrefixOf]
      · simp [List.isPrefixOf, hc, hcs, Ne.symm hc]

theorem strLastIndexAux_slash_append (u r : List Char) (hr : '/' ∉ r) :
    strLastIndexAux [ '/' ] (u ++ '/' :: r) = some u.length := by
  induction u with
  | nil =>
    simp only [List.nil_append, strLastIndexAux]
    rw [(strLastIndexAux_slash_none_iff r).mpr hr]
    simp [List.isPrefixOf]
  | cons c cs ih =>
    simp only [List.cons_append, strLastIndexAux, List.append_eq, ih]
    simp [List.length_cons]

theorem strIndexAux_isPrefixOf (sub : List Char) (l : List Char) (i : Nat)
    (h : strIndexAux sub l = some i) : sub.isPrefixOf (l.drop i) = true := by
  induction l generalizing i with
  | nil =>
    simp only [strIndexAux] at h
    by_cases hs : sub.isEmpty
    · simp [hs] at h
      subst h
      cases sub with
      | nil => simp [List.isPrefixOf]
      | cons a as => simp [List.isEmpty] at hs
    · simp [hs] at h
  | cons c cs ih =>
    simp only [strIndexAux] at h
    by_cases hp : sub.isPrefixOf (c :: cs)
    · simp [hp] at h
      subst h
      simpa using hp
    · simp [hp] at h
      obtain ⟨j, hj, hji⟩ := h
      subst hji
      simpa using ih j hj

theorem slash_mem_of_strLastIndexAux_some (l : List Char) (i : Nat)
    (h : strLastIndexAux [ '/' ] l = some i) : '/' ∈ l := by
  by_contra hmem
  rw [← strLastIndexAux_slash_none_iff] at hmem
  simp [h] at hmem

/-- On a link of shape prefix/region/keyword/name whose first occurrence of the
slash-prefixed keyword is the structural one, parseURL recovers exactly the
final segment as name and the segment before the keyword as region. -/
theorem parseURL_wellFormed (s : String) (u r n : List Char) (kw : String)
    (hsdata : s.data = u ++ '/' :: r ++ '/' :: kw.data ++ '/' :: n)
    (hr : '/' ∉ r) (hn : '/' ∉ n)
    (hidx : strIndex s.data ( '/' :: kw.data) = some (u ++ '/' :: r).length) :
    parseURL s kw = .ok ⟨⟨n⟩, ⟨r⟩⟩ := by
  have hs : u ++ '/' :: r ++ '/' :: kw.data ++ '/' :: n
      = (u ++ '/' :: r) ++ ( '/' :: (kw.data ++ '/' :: n)) := by
    simp [List.append_assoc]
  have htake : s.data.take (u ++ '/' :: r).length = u ++ '/' :: r := by
    rw [hsdata, hs]
    exact List.take_left _ _
  have hdrop : s.data.drop (u ++ '/' :: r).length = '/' :: (kw.data ++ '/' :: n) := by
    rw [hsdata, hs]
    exact List.drop_left _ _
  have hreg : strLastIndex (u ++ '/' :: r) [ '/' ] = some u.length :=
    strLastIndexAux_slash_append u r hr
  have hname : strLastIndex ( '/' :: (kw.data ++ '/' :: n)) [ '/' ]
      = some (kw.data.length + 1) := by
    have : ( '/' :: (kw.data ++ '/' :: n)) = ( '/' :: kw.data) ++ '/' :: n := by
      simp [List.cons_append]
    rw [this]
    have := strLastIndexAux_slash_append ( '/' :: kw.data) n hn
    simpa [List.length_cons, Nat.add_comm] using this
  have hregval : (u ++ '/' :: r).drop (u.length + 1) = r := by
    have : u ++ '/' :: r = (u ++ [ '/' ]) ++ r := by simp
    rw [this]
    have hlen : (u ++ [ '/' ]).length = u.length + 1 := by simp
    rw [← hlen]
    exact List.drop_left _ _
  have hnameval : ( '/' :: (kw.data ++ '/' :: n)).drop (kw.data.length + 1 + 1) = n := by
    have : ( '/' :: (kw.data ++ '/' :: n)) = (( '/' :: kw.data) ++ [ '/' ]) ++ n := by
      simp
    rw [this]
    have hlen : (( '/' :: kw.data) ++ [ '/' ]).length = kw.data.length + 1 + 1 := by
      simp [Nat.add_comm]
    rw [← hlen]
    exact List.drop_left _ _
  simp only [parseURL, hidx]
  simp only [parseAt, htake, hdrop, hreg, hname, hregval, hnameval]

/-- parseURL fails exactly when the slash-prefixed keyword is absent or no
slash occurs before the keyword occurrence; once the keyword is found, the
name extraction can never fail, because the matched occurrence itself starts
with a slash. -/
theorem parseURL_error_iff (s kw : String) :
    (∃ e, parseURL s kw = .error e) ↔
      (strIndex s.data ( '/' :: kw.data) = none ∨
       ∃ pos, strIndex s.data ( '/' :: kw.data) = some pos ∧ '/' ∉ s.data.take pos) := by
  unfold parseURL
  cases hidx : strIndex s.data ( '/' :: kw.data) with
  | none => simp
  | some pos =>
    unfold parseAt
    cases hreg : strLastIndex (s.data.take pos) [ '/' ] with
    | none =>
      have hmem : '/' ∉ s.data.take pos := (strLastIndexAux_slash_none_iff _).mp hreg
      simp [hreg, hmem]
    | some i =>
      have hpre := strIndexAux_isPrefixOf _ _ _ hidx
      rw [ List.isPrefixOf_iff_prefix] at hpre
      obtain ⟨t, ht⟩ := hpre
      have hmem : '/' ∈ s.data.drop pos := by
        rw [← ht]
        simp
      have hne : strLastIndex (s.data.drop pos) [ '/' ] ≠ none := by
        rw [Ne, strLastIndex, strLastIndexAux_slash_none_iff]
        simp [hmem]
      obtain ⟨j, hj⟩ := Option.ne_none_iff_exists'.mp hne
      have hmemtake : '/' ∈ s.data.take pos := slash_mem_of_strLastIndexAux_some _ _ hreg
      simp [hreg, hj, hmemtake]

/-! ### Lemmas about the firewall pass: the zone scan is a filter of the tag
map, and buildTagMap records exactly the gke-prefixed target tags. -/

theorem and_not_helper (a b c : Bool) :
    ((!(a && c)) && (!(a && b))) = (!(a && (b || c))) := by
  cases a <;> cases b <;> cases c <;> rfl

theorem removeTagsFold_eq (fw : List String) (m : TagMap) :
    fw.foldl (fun m tag => if isGkeTag tag then tmDelete m tag else m) m
      = m.filter (fun p => ! (isGkeTag p.1 && fw.contains p.1)) := by
  induction fw generalizing m with
  | nil => simp
  | cons t ts ih =>
    simp only [List.foldl_cons]
    by_cases ht : isGkeTag t
    · rw [if_pos ht, ih]
      simp only [tmDelete, List.filter_filter]
      apply List.filter_congr
      intro p _
      by_cases hpt : p.1 = t
      · simp [hpt, ht]
      · simp [hpt]
    · rw [if_neg ht, ih]
      apply List.filter_congr
      intro p _
      by_cases hpt : p.1 = t
      · simp [hpt, ht]
      · simp [hpt]

theorem instancesFold_eq (insts : List GceInstance) (m : TagMap) :
    insts.foldl removeInstanceTags m
      = m.filter (fun p => ! (isGkeTag p.1 && insts.any (fun i => i.tags.contains p.1))) := by
  induction insts generalizing m with
  | nil => simp
  | cons i is ih =>
    simp only [List.foldl_cons, removeInstanceTags]
    rw [removeTagsFold_eq, ih, List.filter_filter]
    apply List.filter_congr
    intro p _
    simp only [List.any_cons]
    exact and_not_helper _ _ _

theorem scanZone_eq (env : FwEnv) (m : TagMap) (z : String) :
    scanZone env m z = m.filter (fun p => ! (isGkeTag p.1 && zoneSeesTag env z p.1)) := by
  by_cases hm : m.isEmpty
  · have hnil : m = [] := by
      cases m with
      | nil => rfl
      | cons a l => simp [List.isEmpty] at hm
    subst hnil
    simp [scanZone]
  · simp only [scanZone, hm, Bool.false_eq_true, if_false]
    rw [instancesFold_eq]
    rfl

theorem scanZonesFrom_eq (env : FwEnv) (zs : List String) (m : TagMap) :
    scanZonesFrom env zs m
      = m.filter (fun p => ! (isGkeTag p.1 && zs.any (fun z => zoneSeesTag env z p.1))) := by
  induction zs generalizing m with
  | nil => simp [scanZonesFrom]
  | cons z zl ih =>
    simp only [scanZonesFrom, List.foldl_cons]
    rw [show zl.foldl (scanZone env) (scanZone env m z) = scanZonesFrom env zl (scanZone env m z)
          from rfl,
        ih, scanZone_eq, List.filter_filter]
    apply List.filter_congr
    intro p _
    simp only [List.any_cons]
    exact and_not_helper _ _ _

theorem tmAppend_sound (m : TagMap) (tag : String) (fw : Firewall) (t0 : String)
    (fs0 : List Firewall) (hq : (t0, fs0) ∈ tmAppend m tag fw) (g : Firewall)
    (hg : g ∈ fs0) :
    (∃ fs, (t0, fs) ∈ m ∧ g ∈ fs) ∨ (g = fw ∧ t0 = tag) := by
  induction m with
  | nil =>
    simp [tmAppend] at hq
    obtain ⟨rfl, rfl⟩ := hq
    simp at hg
    right
    exact ⟨hg, rfl⟩
  | cons p rest ih =>
    obtain ⟨t, fs⟩ := p
    simp only [tmAppend] at hq
    by_cases ht : t = tag
    · rw [if_pos ht] at hq
      rcases List.mem_cons.mp hq with heq | hmem
      · obtain ⟨rfl, rfl⟩ := Prod.mk.injEq .. ▸ heq
        rcases List.mem_append.mp hg with h2 | h2
        · left
          exact ⟨fs, List.mem_cons_self _ _, h2⟩
        · right
          simp at h2
          exact ⟨h2, ht⟩
      · left
        exact ⟨fs0, List.mem_cons_of_mem _ hmem, hg⟩
    · rw [if_neg ht] at hq
      rcases List.mem_cons.mp hq with heq | hmem
      · obtain ⟨rfl, rfl⟩ := Prod.mk.injEq .. ▸ heq
        left
        exact ⟨fs0, List.mem_cons_self _ _, hg⟩
      · rcases ih hmem with h2 | h2
        · obtain ⟨fs', hf, hgf⟩ := h2
          left
          exact ⟨fs', List.mem_cons_of_mem _ hf, hgf⟩
        · right
          exact h2

theorem tmAppend_self (m : TagMap) (tag : String) (fw : Firewall) :
    ∃ fs, (tag, fs) ∈ tmAppend m tag fw ∧ fw ∈ fs := by
  induction m with
  | nil =>
    refine ⟨[fw], ?_, ?_⟩ <;> simp [tmAppend]
  | cons p rest ih =>
    obtain ⟨t, fs⟩ := p
    by_cases ht : t = tag
    · subst ht
      refine ⟨fs ++ [fw], ?_, ?_⟩ <;> simp [tmAppend]
    · obtain ⟨fs', h1, h2⟩ := ih
      refine ⟨fs', ?_, h2⟩
      simp only [tmAppend, if_neg ht]
      exact List.mem_cons_of_mem _ h1

theorem tmAppend_preserve (m : TagMap) (tag : String) (fw : Firewall) (t0 : String)
    (fs0 : List Firewall) (h : (t0, fs0) ∈ m) :
    ∃ fs', (t0, fs') ∈ tmAppend m tag fw ∧ ∀ g ∈ fs0, g ∈ fs' := by
  induction m with
  | nil => simp at h
  | cons p rest ih =>
    obtain ⟨t, fs⟩ := p
    by_cases ht : t = tag
    · rcases List.mem_cons.mp h with heq | hmem
      · obtain ⟨rfl, rfl⟩ := Prod.mk.injEq .. ▸ heq
        refine ⟨fs0 ++ [fw], ?_, fun g hg => List.mem_append_left _ hg⟩
        simp [tmAppend, ht]
      · refine ⟨fs0, ?_, fun g hg => hg⟩
        simp only [tmAppend, if_pos ht]
        exact List.mem_cons_of_mem _ hmem
    · rcases List.mem_cons.mp h with heq | hmem
      · obtain ⟨rfl, rfl⟩ := Prod.mk.injEq .. ▸ heq
        refine ⟨fs0, ?_, fun g hg => hg⟩
        simp only [tmAppend, if_neg ht]
        exact List.mem_cons_self _ _
      · obtain ⟨fs', h1, h2⟩ := ih hmem
        refine ⟨fs', ?_, h2⟩
        simp only [tmAppend, if_neg ht]
        exact List.mem_cons_of_mem _ h1

theorem tagFold_preserve (tags : List String) (fw : Firewall) (m : TagMap) (t0 : String)
    (fs0 : List Firewall) (h : (t0, fs0) ∈ m) :
    ∃ fs', (t0, fs') ∈ tags.foldl (fun m tag => if isGkeTag tag then tmAppend m tag fw else m) m
      ∧ ∀ g ∈ fs0, g ∈ fs' := by
  induction tags generalizing m fs0 with
  | nil => exact ⟨fs0, h, fun g hg => hg⟩
  | cons t ts ih =>
    simp only [List.foldl_cons]
    by_cases ht : isGkeTag t
    · rw [if_pos ht]
      obtain ⟨fs1, h1, hsub1⟩ := tmAppend_preserve m t fw t0 fs0 h
      obtain ⟨fs2, h2, hsub2⟩ := ih (tmAppend m t fw) fs1 h1
      exact ⟨fs2, h2, fun g hg => hsub2 g (hsub1 g hg)⟩
    · rw [if_neg ht]
      exact ih m fs0 h

theorem tagFold_self (tags : List String) (fw : Firewall) (m : TagMap) (tag : String)
    (htag : tag ∈ tags) (hgke : isGkeTag tag = true) :
    ∃ fs, (tag, fs) ∈ tags.foldl (fun m tag => if isGkeTag tag then tmAppend m tag fw else m) m
      ∧ fw ∈ fs := by
  induction tags generalizing m with
  | nil => simp at htag
  | cons t ts ih =>
    simp only [List.foldl_cons]
    rcases List.mem_cons.mp htag with rfl | hmem
    · rw [if_pos hgke]
      obtain ⟨fs1, h1, hfw⟩ := tmAppend_self m tag fw
      obtain ⟨fs2, h2, hsub⟩ := tagFold_preserve ts fw _ tag fs1 h1
      exact ⟨fs2, h2, hsub fw hfw⟩
    · by_cases ht : isGkeTag t
      · rw [if_pos ht]
        exact ih _ hmem
      · rw [if_neg ht]
        exact ih m hmem

theorem tagFold_sound (tags : List String) (fw : Firewall) (m : TagMap) (t0 : String)
    (fs0 : List Firewall)
    (hq : (t0, fs0) ∈ tags.foldl (fun m tag => if isGkeTag tag then tmAppend m tag fw else m) m)
    (g : Firewall) (hg : g ∈ fs0) :
    (∃ fs, (t0, fs) ∈ m ∧ g ∈ fs) ∨ (g = fw ∧ t0 ∈ tags ∧ isGkeTag t0 = true) := by
  induction tags generalizing m fs0 with
  | nil => exact .inl ⟨fs0, hq, hg⟩
  | cons t ts ih =>
    simp only [List.foldl_cons] at hq
    by_cases ht : isGkeTag t
    · rw [if_pos ht] at hq
      rcases ih _ _ hq hg with h | h
      · obtain ⟨fs1, h1, hg1⟩ := h
        rcases tmAppend_sound m t fw t0 fs1 h1 g hg1 with h2 | h2
        · exact .inl h2
        · obtain ⟨hgfw, rfl⟩ := h2
          exact .inr ⟨hgfw, List.mem_cons_self _ _, ht⟩
      · exact .inr ⟨h.1, List.mem_cons_of_mem _ h.2.1, h.2.2⟩
    · rw [if_neg ht] at hq
      rcases ih _ _ hq hg with h | h
      · exact .inl h
      · exact .inr ⟨h.1, List.mem_cons_of_mem _ h.2.1, h.2.2⟩

theorem buildFold_preserve (l : List Firewall) (m : TagMap) (t0 : String)
    (fs0 : List Firewall) (h : (t0, fs0) ∈ m) :
    ∃ fs', (t0, fs') ∈ l.foldl addFirewallTags m ∧ ∀ g ∈ fs0, g ∈ fs' := by
  induction l generalizing m fs0 with
  | nil => exact ⟨fs0, h, fun g hg => hg⟩
  | cons fw fws ih =>
    simp only [List.foldl_cons]
    obtain ⟨fs1, h1, hsub1⟩ := tagFold_preserve fw.targetTags fw m t0 fs0 h
    obtain ⟨fs2, h2, hsub2⟩ := ih (addFirewallTags m fw) fs1 h1
    exact ⟨fs2, h2, fun g hg => hsub2 g (hsub1 g hg)⟩

theorem buildFold_complete (l : List Firewall) (m : TagMap) (fw : Firewall) (tag : String)
    (hfw : fw ∈ l) (htag : tag ∈ fw.targetTags) (hgke : isGkeTag tag = true) :
    ∃ fs, (tag, fs) ∈ l.foldl addFirewallTags m ∧ fw ∈ fs := by
  induction l generalizing m with
  | nil => simp at hfw
  | cons fw1 fws ih =>
    simp only [List.foldl_cons]
    rcases List.mem_cons.mp hfw with rfl | hmem
    · obtain ⟨fs1, h1, hfw1⟩ := tagFold_self fw.targetTags fw m tag htag hgke
      obtain ⟨fs2, h2, hsub⟩ := buildFold_preserve fws (addFirewallTags m fw) tag fs1 h1
      exact ⟨fs2, h2, hsub fw hfw1⟩
    · exact ih _ hmem

theorem buildFold_sound (l : List Firewall) (m : TagMap) (t0 : String)
    (fs0 : List Firewall) (hq : (t0, fs0) ∈ l.foldl addFirewallTags m)
    (g : Firewall) (hg : g ∈ fs0) :
    (∃ fs, (t0, fs) ∈ m ∧ g ∈ fs) ∨
      (∃ fw, fw ∈ l ∧ g = fw ∧ t0 ∈ fw.targetTags ∧ isGkeTag t0 = true) := by
  induction l generalizing m fs0 with
  | nil => exact .inl ⟨fs0, hq, hg⟩
  | cons fw1 fws ih =>
    simp only [List.foldl_cons] at hq
    rcases ih _ _ hq hg with h | h
    · obtain ⟨fs1, h1, hg1⟩ := h
      rcases tagFold_sound fw1.targetTags fw1 m t0 fs1 h1 g hg1 with h2 | h2
      · exact .inl h2
      · exact .inr ⟨fw1, List.mem_cons_self _ _, h2.1, h2.2.1, h2.2.2⟩
    · obtain ⟨fw, hfw, hrest⟩ := h
      exact .inr ⟨fw, List.mem_cons_of_mem _ hfw, hrest⟩

theorem issueDeletes_all (outcome : String → Bool) (l : List Firewall)
    (hok : ∀ nm, outcome nm = true) :
    issueDeletes outcome l = l.map (fun fw => fw.name) := by
  induction l with
  | nil => rfl
  | cons fw fws ih => simp [issueDeletes, hok, ih]

theorem issueDeletes_subset (outcome : String → Bool) (l : List Firewall) (nm : String)
    (h : nm ∈ issueDeletes outcome l) :
    ∃ fw, fw ∈ l ∧ fw.name = nm := by
  induction l with
  | nil => simp [issueDeletes] at h
  | cons fw fws ih =>
    simp only [issueDeletes] at h
    by_cases ho : outcome fw.name
    · rw [if_pos ho] at h
      rcases List.mem_cons.mp h with rfl | hmem
      · exact ⟨fw, List.mem_cons_self _ _, rfl⟩
      · obtain ⟨fw', h1, h2⟩ := ih hmem
        exact ⟨fw', List.mem_cons_of_mem _ h1, h2⟩
    · rw [if_neg ho] at h
      simp at h
      exact ⟨fw, List.mem_cons_self _ _, h.symm⟩


/-! ### Lemmas about the classifier and planner -/

/-- Once the proxy lookup succeeds and the grace check does not fire, the
pass reduces to the dead-or-alive decision on the instance total. -/
theorem checkAndDelete_eq_of_resolved (env : Env) (fwname rgn tpname : String)
    (isHTTPs : Bool) (tpName : String) (certificates : List String)
    (urlMapURL timestamp : String)
    (hget : resolveProxyInfo env tpname isHTTPs
      = some (tpName, certificates, urlMapURL, timestamp))
    (hgrace : ¬ ((env.parseTime timestamp).getD goZeroTime > env.now - 3600))
    (um : ParsedLink) (hum : ParseUrlMap urlMapURL = .ok um)
    (umap : UrlMap) (hgetum : env.getUrlMap um.name = some umap)
    (services : List BackendService) (hfind : FindBackendServices env umap = .ok services)
    (total : Nat) (htot : totalInstances env services = .ok total) :
    checkAndDeleteTargetProxiesIfApplicable env fwname rgn tpname isHTTPs
      = if 0 < total then .ok []
        else .ok (buildPlan fwname rgn tpName isHTTPs certificates services um.name
                    (env.now + 900)) := by
  simp only [checkAndDeleteTargetProxiesIfApplicable, hget, hum, hgetum, hfind, htot,
    if_neg hgrace]

theorem certTasks_mem (certificates : List String) (e : Int) (task : DeletionTask)
    (h : task ∈ certTasks certificates e) :
    task.path = "/job/ssl-certificates/delete" ∧ task.expires = e := by
  obtain ⟨cert, _, hm⟩ := List.mem_filterMap.mp h
  cases hp : ParseSslCertificates cert with
  | error err =>
    rw [hp] at hm
    simp at hm
  | ok p =>
    rw [hp] at hm
    simp at hm
    rw [← hm]
    exact ⟨rfl, rfl⟩

theorem serviceTasks_mem (services : List BackendService) (e : Int) (task : DeletionTask)
    (h : task ∈ serviceTasks services e) :
    (task.path = "/job/backend-services/delete" ∨ task.path = "/job/health-checks/delete")
      ∧ task.expires = e := by
  obtain ⟨s, _, hm⟩ := List.mem_flatMap.mp h
  rcases List.mem_cons.mp hm with rfl | hm2
  · exact ⟨.inl rfl, rfl⟩
  · obtain ⟨hc, _, hmap⟩ := List.mem_map.mp hm2
    rw [← hmap]
    exact ⟨.inr rfl, rfl⟩

theorem buildPlan_expires (fwname rgn tpName : String) (isHTTPs : Bool)
    (certificates : List String) (services : List BackendService) (umname : String)
    (e : Int) (task : DeletionTask)
    (h : task ∈ buildPlan fwname rgn tpName isHTTPs certificates services umname e) :
    task.expires = e := by
  simp only [buildPlan] at h
  rcases List.mem_cons.mp h with rfl | h
  · rfl
  · rcases List.mem_append.mp h with h | h
    · rcases List.mem_append.mp h with h | h
      · rcases List.mem_append.mp h with h | h
        · by_cases hh : isHTTPs
          · rw [if_pos hh] at h
            exact (certTasks_mem certificates e task h).2
          · rw [if_neg hh] at h
            simp at h
        · exact (serviceTasks_mem services e task h).2
      · rcases List.mem_cons.mp h with rfl | h
        · rfl
        · simp at h
    · by_cases hf : 0 < fwname.length
      · rw [if_pos hf] at h
        rcases List.mem_cons.mp h with rfl | h
        · rfl
        · simp at h
      · rw [if_neg hf] at h
        simp at h


/-! ### The claims -/

/-- Claim C1 (code-bug evaluation): init registers httpBackendServicesDelete
for the /job/ssl-certificates/delete path (app.go line 58) and never
registers httpSslCertificatesDelete.  An unexpired delivery of an
ssl-certificate deletion task therefore issues a regional backend-service
delete (with empty region, since the planner sets no region parameter on
certificate tasks) for the certificate's name and never an SSL-certificate
delete, while the unregistered handler would have issued exactly the
SSL-certificate delete. -/
theorem C1_ssl_route_deletes_backend_service :
    routeHandler "/job/ssl-certificates/delete" = some Handler.backendServicesDelete ∧
    (runHandler envWorker true Handler.backendServicesDelete reqSsl).2
      = [⟨.regionalBackendService, "k8s-ssl-cert-1", ""⟩] ∧
    (∀ call ∈ (runHandler envWorker true Handler.backendServicesDelete reqSsl).2,
      call.kind ≠ .sslCertificate) ∧
    (runHandler envWorker true Handler.sslCertificatesDelete reqSsl).2
      = [⟨.sslCertificate, "k8s-ssl-cert-1", ""⟩] := by
  refine ⟨rfl, rfl, ?_, rfl⟩
  decide

/-- Claim C2: for a resolved tree older than the grace window, the pass emits
a deletion plan iff the total instance count over every instance group of
every backend service reached from the url map is exactly zero; with at
least one live instance it returns having enqueued nothing. -/
theorem C2_dead_iff_zero_instances (env : Env) (fwname rgn tpname : String) (isHTTPs : Bool)
    (tpName : String) (certificates : List String) (urlMapURL timestamp : String) (t : Int)
    (hget : resolveProxyInfo env tpname isHTTPs
      = some (tpName, certificates, urlMapURL, timestamp))
    (hparse : env.parseTime timestamp = some t)
    (hold : t ≤ env.now - 3600)
    (um : ParsedLink) (hum : ParseUrlMap urlMapURL = .ok um)
    (umap : UrlMap) (hgetum : env.getUrlMap um.name = some umap)
    (services : List BackendService) (hfind : FindBackendServices env umap = .ok services)
    (total : Nat) (htot : totalInstances env services = .ok total) :
    (emittedTasks env fwname rgn tpname isHTTPs ≠ [] ↔ total = 0) ∧
    (0 < total →
      checkAndDeleteTargetProxiesIfApplicable env fwname rgn tpname isHTTPs = .ok []) := by
  have hgrace : ¬ ((env.parseTime timestamp).getD goZeroTime > env.now - 3600) := by
    rw [hparse]
    simp only [Option.getD_some]
    omega
  have heq := checkAndDelete_eq_of_resolved env fwname rgn tpname isHTTPs tpName certificates
    urlMapURL timestamp hget hgrace um hum umap hgetum services hfind total htot
  constructor
  · by_cases ht : 0 < total
    · rw [if_pos ht] at heq
      simp only [emittedTasks, heq]
      constructor
      · intro hcon
        exact absurd rfl hcon
      · intro h0
        exact absurd h0 (by omega)
    · rw [if_neg ht] at heq
      have ht0 : total = 0 := by omega
      simp only [emittedTasks, heq, ht0]
      simp [buildPlan]
  · intro ht
    rw [heq, if_pos ht]

/-- Witness for C2 at the concrete two-hour-old, zero-instance tree. -/
theorem C2_witness :
    (emittedTasks envDead "fw-1" "global" "tp-1" false ≠ [] ↔ (0 : Nat) = 0) ∧
    (0 < (0 : Nat) →
      checkAndDeleteTargetProxiesIfApplicable envDead "fw-1" "global" "tp-1" false = .ok []) :=
  C2_dead_iff_zero_instances envDead "fw-1" "global" "tp-1" false "tp-1" [] umLink tpTs 2800
    rfl rfl (by decide) ⟨"um-1", "global"⟩ rfl umEx rfl [bsEx] rfl 0 rfl

/-- Claim C3: a proxy whose parsed creation time is less than one hour before
now is classified alive unconditionally — the pass returns with no tasks
regardless of instance counts; and the concrete two-hour-old proxy with zero
instances is classified dead (a nonempty plan is emitted). -/
theorem C3_grace_window :
    (∀ (env : Env) (fwname rgn tpname : String) (isHTTPs : Bool) (tpName : String)
       (certificates : List String) (urlMapURL timestamp : String) (t : Int),
       resolveProxyInfo env tpname isHTTPs = some (tpName, certificates, urlMapURL, timestamp) →
       env.parseTime timestamp = some t →
       env.now - 3600 < t →
       checkAndDeleteTargetProxiesIfApplicable env fwname rgn tpname isHTTPs = .ok []) ∧
    emittedTasks envDead "fw-1" "global" "tp-1" false ≠ [] := by
  constructor
  · intro env fwname rgn tpname isHTTPs tpName certificates urlMapURL timestamp t hget hparse
      hyoung
    have hgrace : (env.parseTime timestamp).getD goZeroTime > env.now - 3600 := by
      rw [hparse]
      simpa using hyoung
    simp only [checkAndDeleteTargetProxiesIfApplicable, hget, if_pos hgrace]
  · decide

/-- Witness for C3 at the concrete thirty-minute-old proxy. -/
theorem C3_witness :
    checkAndDeleteTargetProxiesIfApplicable envYoung "fw-1" "global" "tp-1" false = .ok [] :=
  C3_grace_window.1 envYoung "fw-1" "global" "tp-1" false "tp-1" [] umLink tpTs 8200 rfl rfl
    (by decide)

/-- Claim C4: for a dead tree the emitted plan is the proxy task first, then a
middle section consisting only of certificate (HTTPS only), backend-service
and health-check tasks, then the url-map task, then the forwarding-rule task
exactly when a forwarding-rule name exists (absent on the orphan-proxy path),
and every task of the plan carries the same expiry now + 900 seconds. -/
theorem C4_plan_order_and_expiry (env : Env) (fwname rgn tpname : String) (isHTTPs : Bool)
    (tpName : String) (certificates : List String) (urlMapURL timestamp : String) (t : Int)
    (hget : resolveProxyInfo env tpname isHTTPs
      = some (tpName, certificates, urlMapURL, timestamp))
    (hparse : env.parseTime timestamp = some t)
    (hold : t ≤ env.now - 3600)
    (um : ParsedLink) (hum : ParseUrlMap urlMapURL = .ok um)
    (umap : UrlMap) (hgetum : env.getUrlMap um.name = some umap)
    (services : List BackendService) (hfind : FindBackendServices env umap = .ok services)
    (htot : totalInstances env services = .ok 0) :
    ∃ plan mid,
      checkAndDeleteTargetProxiesIfApplicable env fwname rgn tpname isHTTPs = .ok plan ∧
      plan = ⟨"/job/target-http-proxies/delete", tpName, "", some isHTTPs, env.now + 900⟩ ::
        (mid ++ [⟨"/job/url-maps/delete", um.name, "", none, env.now + 900⟩] ++
         (if 0 < fwname.length then
            [⟨"/job/forwarding-rules/delete", fwname, rgn, none, env.now + 900⟩]
          else [])) ∧
      (∀ task ∈ mid,
        task.path = "/job/ssl-certificates/delete" ∨
        task.path = "/job/backend-services/delete" ∨
        task.path = "/job/health-checks/delete") ∧
      (∀ task ∈ plan, task.expires = env.now + 900) := by
  have hgrace : ¬ ((env.parseTime timestamp).getD goZeroTime > env.now - 3600) := by
    rw [hparse]
    simp only [Option.getD_some]
    omega
  have heq := checkAndDelete_eq_of_resolved env fwname rgn tpname isHTTPs tpName certificates
    urlMapURL timestamp hget hgrace um hum umap hgetum services hfind 0 htot
  rw [if_neg (by omega : ¬ (0 : Nat) < 0)] at heq
  refine ⟨_, (if isHTTPs then certTasks certificates (env.now + 900) else []) ++
    serviceTasks services (env.now + 900), heq, rfl, ?_, ?_⟩
  · intro task htask
    rcases List.mem_append.mp htask with h | h
    · by_cases hh : isHTTPs
      · rw [if_pos hh] at h
        exact .inl (certTasks_mem certificates _ task h).1
      · rw [if_neg hh] at h
        simp at h
    · rcases (serviceTasks_mem services _ task h).1 with h2 | h2
      · exact .inr (.inl h2)
      · exact .inr (.inr h2)
  · intro task htask
    exact buildPlan_expires fwname rgn tpName isHTTPs certificates services um.name _ task htask

/-- Witness for C4 at the concrete HTTPS tree with a certificate, a backend
service with one health check, and a forwarding rule. -/
theorem C4_witness :
    ∃ plan mid,
      checkAndDeleteTargetProxiesIfApplicable envDead "fw-1" "global" "tps-1" true = .ok plan ∧
      plan = ⟨"/job/target-http-proxies/delete", "tps-1", "", some true, 10900⟩ ::
        (mid ++ [⟨"/job/url-maps/delete", "um-1", "", none, 10900⟩] ++
         (if 0 < ("fw-1" : String).length then
            [⟨"/job/forwarding-rules/delete", "fw-1", "global", none, 10900⟩]
          else [])) ∧
      (∀ task ∈ mid,
        task.path = "/job/ssl-certificates/delete" ∨
        task.path = "/job/backend-services/delete" ∨
        task.path = "/job/health-checks/delete") ∧
      (∀ task ∈ plan, task.expires = 10900) :=
  C4_plan_order_and_expiry envDead "fw-1" "global" "tps-1" true "tps-1" [certLink] umLink tpTs
    2800 rfl rfl (by decide) ⟨"um-1", "global"⟩ rfl umEx rfl [bsEx] rfl rfl

/-- Claim C5: on an unexpired delivery, every delete worker acknowledges
(2XX) a googleapi-404 failure and does not acknowledge (the 500 response) any
other failure, leaving the task to redelivery. -/
theorem C5_notfound_ack (env : WorkerEnv) (h : Handler) (r : HttpRequest) (c : ApiCall)
    (hc : deleteCallOf h r = some c) (hexp : isExpired r env.now = false) :
    (env.outcome c = .failure (.googleApi 404) →
      acked (runHandler env true h r).1 = true) ∧
    (∀ e, env.outcome c = .failure e → e ≠ .googleApi 404 →
      acked (runHandler env true h r).1 = false) := by
  constructor
  · intro hout
    simp [runHandler, hc, hexp, hout, handleJobErrorStatus, acked]
  · intro e hout hne
    cases e with
    | googleApi code =>
      have hcode : ¬ (code = 404) := fun hcc => hne (by rw [hcc])
      simp [runHandler, hc, hexp, hout, handleJobErrorStatus, hcode, acked]
    | other =>
      simp [runHandler, hc, hexp, hout, handleJobErrorStatus, acked]

/-- Witness for C5 at the ssl-certificate worker with a 404 outcome. -/
theorem C5_witness :
    (envNotFound.outcome ⟨.sslCertificate, "k8s-ssl-cert-1", ""⟩
        = .failure (.googleApi 404) →
      acked (runHandler envNotFound true Handler.sslCertificatesDelete reqSsl).1 = true) ∧
    (∀ e, envNotFound.outcome ⟨.sslCertificate, "k8s-ssl-cert-1", ""⟩ = .failure e →
      e ≠ .googleApi 404 →
      acked (runHandler envNotFound true Handler.sslCertificatesDelete reqSsl).1 = false) :=
  C5_notfound_ack envNotFound Handler.sslCertificatesDelete reqSsl
    ⟨.sslCertificate, "k8s-ssl-cert-1", ""⟩ rfl rfl

/-- Claim C6: a delivered deletion task whose expiry lies strictly in the
past is answered 204 (an acknowledgement) immediately, with zero API calls
issued. -/
theorem C6_expired_task_no_api_call (env : WorkerEnv) (appOk : Bool) (h : Handler)
    (r : HttpRequest) (c : ApiCall) (e : Int)
    (hc : deleteCallOf h r = some c) (hp : r.expiresParse = some e)
    (hpast : e < env.now) :
    runHandler env appOk h r = (204, []) ∧ acked 204 = true := by
  have hexp : isExpired r env.now = true := by
    simp only [isExpired, hp, decide_eq_true_eq]
    omega
  refine ⟨?_, rfl⟩
  simp [runHandler, hc, hexp]

/-- Witness for C6 at a backend-service task whose expiry has passed. -/
theorem C6_witness :
    runHandler envWorker true Handler.backendServicesDelete reqExpired = (204, []) ∧
    acked 204 = true :=
  C6_expired_task_no_api_call envWorker true Handler.backendServicesDelete reqExpired
    ⟨.globalBackendService, "bs-old", ""⟩ 500 rfl rfl (by decide)

/-- Claim C7 counterexample: a link whose collection keyword is not followed
by a path separator; the claim requires a ParseError, but the parser
succeeds, returning the keyword itself as the name. -/
theorem C7_counterexample :
    parseURL "projects/p1/global/urlMaps" "urlMaps" = .ok ⟨"urlMaps", "global"⟩ := rfl

/-- Claim C7 (amended): on a well-formed link the parser returns the final
segment as name and the segment before the keyword as scope; a ParseError is
yielded iff the slash-prefixed keyword is absent or no separator precedes the
scope segment.  A separator missing after the keyword does not yield an
error (the keyword itself is returned as the name, see the counterexample);
the name extraction cannot fail once the keyword is found.  ParseUrlMap is
the urlMaps instance of the generic parser. -/
theorem C7_parse_characterization :
    (∀ (s : String) (u r n : List Char) (kw : String),
        s.data = u ++ '/' :: r ++ '/' :: kw.data ++ '/' :: n →
        '/' ∉ r → '/' ∉ n →
        strIndex s.data ( '/' :: kw.data) = some (u ++ '/' :: r).length →
        parseURL s kw = .ok ⟨⟨n⟩, ⟨r⟩⟩) ∧
    (∀ (s kw : String),
        (∃ e, parseURL s kw = .error e) ↔
          (strIndex s.data ( '/' :: kw.data) = none ∨
           ∃ pos, strIndex s.data ( '/' :: kw.data) = some pos ∧ '/' ∉ s.data.take pos)) ∧
    (∀ s, ParseUrlMap s = parseURL s "urlMaps") :=
  ⟨parseURL_wellFormed, parseURL_error_iff, fun _ => rfl⟩

/-- Witness for C7 at a concrete well-formed url-map link. -/
theorem C7_witness :
    parseURL "projects/p1/global/urlMaps/um-1" "urlMaps"
      = .ok ⟨⟨"um-1".data⟩, ⟨"global".data⟩⟩ :=
  C7_parse_characterization.1 "projects/p1/global/urlMaps/um-1" "projects/p1".data
    "global".data "um-1".data "urlMaps" (by decide) (by decide) (by decide) (by decide)

/-- Claim C8 (amended): after the scan, a gke-prefixed tag with no live
instance in any zone causes a delete call for every rule keyed by it (given
the deletes succeed, so the pass is not cut short); and every delete call
targets a rule owning at least one gke-prefixed tag with no live instance —
hence a rule keyed only by live gke tags is never deleted, but a rule keyed
by a live tag is still deleted when another of its gke tags is dead (see the
counterexample). -/
theorem C8_firewall_reconciliation :
    (∀ (env : FwEnv) (outcome : String → Bool) (fw : Firewall) (tag : String),
       fw ∈ env.firewalls → tag ∈ fw.targetTags → isGkeTag tag = true →
       tagLive env tag = false → (∀ nm, outcome nm = true) →
       fw.name ∈ firewallDeleteCalls env outcome) ∧
    (∀ (env : FwEnv) (outcome : String → Bool) (nm : String),
       nm ∈ firewallDeleteCalls env outcome →
       ∃ fw tag, fw ∈ env.firewalls ∧ fw.name = nm ∧ tag ∈ fw.targetTags ∧
         isGkeTag tag = true ∧ tagLive env tag = false) := by
  constructor
  · intro env outcome fw tag hfw htag hgke hdead hok
    obtain ⟨fs, hmem, hfwin⟩ := buildFold_complete env.firewalls [] fw tag hfw htag hgke
    have hsurv : (tag, fs) ∈ scanZonesFrom env env.zones (buildTagMap env.firewalls) := by
      rw [scanZonesFrom_eq]
      refine List.mem_filter.mpr ⟨hmem, ?_⟩
      show (! (isGkeTag tag && tagLive env tag)) = true
      rw [hgke, hdead]
      rfl
    have hdangling : fw ∈ ListDanglingFirewalls env :=
      List.mem_flatMap.mpr ⟨(tag, fs), hsurv, hfwin⟩
    show fw.name ∈ issueDeletes outcome (ListDanglingFirewalls env)
    rw [issueDeletes_all outcome _ hok]
    exact List.mem_map.mpr ⟨fw, hdangling, rfl⟩
  · intro env outcome nm hnm
    obtain ⟨fw, hfwd, hname⟩ := issueDeletes_subset outcome (ListDanglingFirewalls env) nm hnm
    simp only [ListDanglingFirewalls] at hfwd
    obtain ⟨p, hp, hfwp⟩ := List.mem_flatMap.mp hfwd
    rw [scanZonesFrom_eq] at hp
    obtain ⟨t0, fs0⟩ := p
    have hpm := List.mem_filter.mp hp
    rcases buildFold_sound env.firewalls [] t0 fs0 hpm.1 fw hfwp with hcase | hcase
    · obtain ⟨fs, hfs, _⟩ := hcase
      simp at hfs
    · obtain ⟨fw2, hfw2, hgfw, htag2, hgke2⟩ := hcase
      subst hgfw
      refine ⟨fw, t0, hfw2, hname, htag2, hgke2, ?_⟩
      have hpred : (! (isGkeTag t0 && tagLive env t0)) = true := hpm.2
      rw [hgke2] at hpred
      simpa using hpred

/-- Claim C8 counterexample: the rule fw-mixed is keyed by gke-live, observed
on a live instance in zone z1, yet the pass deletes fw-mixed because its
other tag gke-dead has no live instance — refuting the claim's zero
deletions for rules keyed by a live tag. -/
theorem C8_counterexample :
    "gke-live" ∈ fwMixed.targetTags ∧ tagLive envC8 "gke-live" = true ∧
    firewallDeleteCalls envC8 (fun _ => true) = ["fw-mixed"] := by
  decide

/-- Witness for C8 at a concrete dead tag. -/
theorem C8_witness : "fw-dead" ∈ firewallDeleteCalls envC8w (fun _ => true) :=
  C8_firewall_reconciliation.1 envC8w (fun _ => true) fwDead "gke-dead" (by decide) (by decide)
    (by decide) (by decide) (fun _ => rfl)

/-- Claim C9: when the creation timestamp fails to parse, the error is
discarded and the zero time is used, so for any present-day now the grace
guard does not fire and a zero-instance tree still yields a deletion plan. -/
theorem C9_unparsable_timestamp_deletable (env : Env) (fwname rgn tpname : String)
    (isHTTPs : Bool) (tpName : String) (certificates : List String)
    (urlMapURL timestamp : String)
    (hget : resolveProxyInfo env tpname isHTTPs
      = some (tpName, certificates, urlMapURL, timestamp))
    (hparse : env.parseTime timestamp = none)
    (hnow : goZeroTime + 3600 ≤ env.now)
    (um : ParsedLink) (hum : ParseUrlMap urlMapURL = .ok um)
    (umap : UrlMap) (hgetum : env.getUrlMap um.name = some umap)
    (services : List BackendService) (hfind : FindBackendServices env umap = .ok services)
    (htot : totalInstances env services = .ok 0) :
    ∃ plan, checkAndDeleteTargetProxiesIfApplicable env fwname rgn tpname isHTTPs = .ok plan
      ∧ plan ≠ [] := by
  have hgrace : ¬ ((env.parseTime timestamp).getD goZeroTime > env.now - 3600) := by
    rw [hparse]
    simp only [Option.getD_none]
    omega
  have heq := checkAndDelete_eq_of_resolved env fwname rgn tpname isHTTPs tpName certificates
    urlMapURL timestamp hget hgrace um hum umap hgetum services hfind 0 htot
  rw [if_neg (by omega : ¬ (0 : Nat) < 0)] at heq
  exact ⟨_, heq, by simp [buildPlan]⟩

/-- Witness for C9 at the concrete environment whose timestamp never
parses. -/
theorem C9_witness :
    ∃ plan, checkAndDeleteTargetProxiesIfApplicable envNoParse "fw-1" "global" "tp-1" false
      = .ok plan ∧ plan ≠ [] :=
  C9_unparsable_timestamp_deletable envNoParse "fw-1" "global" "tp-1" false "tp-1" [] umLink
    tpTs rfl rfl (by decide) ⟨"um-1", "global"⟩ rfl umEx rfl [bsEx] rfl rfl

/-- Claim C10: a firewall rule whose target tags include two gke-prefixed
tags, neither live anywhere, is returned once per tag by
ListDanglingFirewalls, so one reconciliation pass issues two delete calls for
the same rule. -/
theorem C10_multi_tag_duplicate_deletes :
    tagLive envC10 "gke-x" = false ∧ tagLive envC10 "gke-y" = false ∧
    ListDanglingFirewalls envC10 = [fwMulti, fwMulti] ∧
    firewallDeleteCalls envC10 (fun _ => true) = ["fw-multi", "fw-multi"] := by
  decide

end AutoLBClean
